import Mathlib

/-!
Verification development for the simscity measurement-noise pipeline
(sequencing.py and drug.py). Random draws made through numpy are modelled
as oracle arguments; theorems constrain an oracle to the support of the
corresponding distribution where the property depends on it.
-/

set_option autoImplicit false

namespace SimsCity

/-! ### Library-Size Model (sequencing.py, library_size) -/

/-- Support of st.truncnorm.rvs(lower_bound, upper_bound, loc, scale): the
draw lies in [loc + lower_bound * scale, loc + upper_bound * scale]. -/
def truncnormSupport (loc scale lowerB upperB x : ℝ) : Prop :=
  loc + lowerB * scale ≤ x ∧ x ≤ loc + upperB * scale

/-- library_size: np.exp(st.truncnorm.rvs(...)).astype(int). The truncated
normal draws are the oracle list; astype(int) truncates toward zero, which
for the positive values exp produces is the floor. -/
noncomputable def library_size (draws : List ℝ) : List ℤ :=
  draws.map (fun x => ⌊Real.exp x⌋)

/-! ### Fragmentation Model (sequencing.py, fragment_genes) -/

/-- Support of np.random.poisson(lam): any natural when lam is positive,
exactly 0 when lam = 0. -/
def poissonSupport (lam : ℚ) (k : ℕ) : Prop := 0 < lam ∨ k = 0

/-- fragment_genes: 1 + np.random.poisson(lam, size=n_genes), with the
Poisson draws given as the oracle list. -/
def fragment_genes (draws : List ℕ) : List ℕ :=
  draws.map (fun k => 1 + k)

/-! ### Dose-Response Model (drug.py, response) -/

/-- scipy.special.expit, the logistic sigmoid. -/
noncomputable def expit (x : ℝ) : ℝ := 1 / (1 + Real.exp (-x))

/-- np.dot of two vectors. -/
noncomputable def dotZ (v w : List ℝ) : ℝ := (List.zipWith (fun a b => a * b) v w).sum

/-- response: ssp.expit(np.dot(latent_exp, z_weights)[..., None] + doses).
Row r, column c of the output is expit(dot(latent_exp[r], z_weights) + doses[c]). -/
noncomputable def response (latent_exp : List (List ℝ)) (z_weights : List ℝ) (doses : List ℝ) :
    List (List ℝ) :=
  latent_exp.map (fun row => doses.map (fun d => expit (dotZ row z_weights + d)))

/-! ### PCR Amplification Engine (sequencing.py, pcr_noise) -/

/-- The pcr_betas argument: a python scalar or a per-feature array. -/
inductive BetaArg
  | scalar (b : ℚ)
  | perFeature (v : List ℚ)
deriving DecidableEq

/-- np.any(pcr_betas < 0). -/
def betaHasNeg : BetaArg → Bool
  | .scalar b => decide (b < 0)
  | .perFeature v => v.any (fun b => decide (b < 0))

/-- Whether np.broadcast_to(pcr_betas, (1, n)) succeeds: a scalar always
broadcasts; an array must match the feature count (the canonical case). -/
def betaLenOk : BetaArg → ℕ → Bool
  | .scalar _, _ => true
  | .perFeature v, n => decide (v.length = n)

/-- np.broadcast_to(pcr_betas, (1, n)) as a fallible operation. -/
def broadcastBetas : BetaArg → ℕ → Except String (List ℚ)
  | .scalar b, n => .ok (List.replicate n b)
  | .perFeature v, n =>
      if v.length = n then .ok v else .error "could not broadcast pcr_betas"

/-- Canonical scipy CSR matrix, flattened to coordinate form: entry k is
stored at (rowIdx k, colIdx k) with value data k, in row-major order with
no duplicate positions. -/
structure CSR where
  rows : ℕ
  cols : ℕ
  rowIdx : List ℕ
  colIdx : List ℕ
  data : List ℕ
deriving DecidableEq

/-- The read_counts argument of pcr_noise: dense 2-d array or CSR matrix. -/
inductive ReadCounts
  | dense (m : List (List ℕ))
  | sparse (s : CSR)
deriving DecidableEq

/-- read_counts.shape[1]. -/
def rcCols : ReadCounts → ℕ
  | .dense m => (m.headD []).length
  | .sparse s => s.cols

/-- Map with the element index threaded through, starting at k. -/
def mapWithIdx {α β : Type} (f : ℕ → α → β) : ℕ → List α → List β
  | _, [] => []
  | k, a :: l => f k a :: mapWithIdx f (k + 1) l

/-- One PCR cycle on a dense matrix: d += np.random.binomial(n=d, p=pcr_betas).
The oracle draws cyc i j n is the binomial draw at cycle cyc for position
(i, j) when the current count there is n; the efficiency p enters only
through the distribution the oracle is later constrained to. -/
def pcrStepDense (draws : ℕ → ℕ → ℕ → ℕ → ℕ) (cyc : ℕ) (m : List (List ℕ)) :
    List (List ℕ) :=
  mapWithIdx (fun r row => mapWithIdx (fun c v => v + draws cyc r c v) 0 row) 0 m

/-- The cycle loop of pcr_noise on a dense matrix. -/
def pcrDense (draws : ℕ → ℕ → ℕ → ℕ → ℕ) (n_cycles : ℕ) (m : List (List ℕ)) :
    List (List ℕ) :=
  (List.range n_cycles).foldl (fun acc cyc => pcrStepDense draws cyc acc) m

/-- The cycle loop of pcr_noise on the data vector of a sparse matrix;
read_counts.data[None, :] has shape (1, nnz), so entry k sits at
position (0, k). -/
def pcrCData (draws : ℕ → ℕ → ℕ → ℕ → ℕ) (n_cycles : ℕ) (d : List ℕ) : List ℕ :=
  (List.range n_cycles).foldl
    (fun acc cyc => mapWithIdx (fun k v => v + draws cyc 0 k v) 0 acc) d

/-- pcr_noise. Returns the pair (returned value, what the buffer passed as
read_counts holds after the call): the negativity check precedes the copy
and any mutation, so on error the buffer is untouched; with copy=True the
loop runs on an independent copy; with copy=False it mutates the argument. -/
def pcr_noise (read_counts : ReadCounts) (pcr_betas : BetaArg) (n_cycles : ℕ)
    (copy : Bool) (draws : ℕ → ℕ → ℕ → ℕ → ℕ) :
    Except String ReadCounts × ReadCounts :=
  if betaHasNeg pcr_betas then
    (.error "pcr_betas must be non-negative", read_counts)
  else
    match broadcastBetas pcr_betas (rcCols read_counts) with
    | .error e => (.error e, read_counts)
    | .ok _betas =>
      match read_counts with
      | .dense m =>
          let m2 := pcrDense draws n_cycles m
          (.ok (.dense m2), if copy then .dense m else .dense m2)
      | .sparse s =>
          let d2 := pcrCData draws n_cycles s.data
          let s2 : CSR := { s with data := d2 }
          (.ok (.sparse s2), if copy then .sparse s else .sparse s2)

/-- Binomial support: a draw with n trials is at most n (and a draw with
0 trials is 0). -/
def binomialSupport (draws : ℕ → ℕ → ℕ → ℕ → ℕ) : Prop :=
  ∀ cyc i j n, draws cyc i j n ≤ n

/-- Entrywise order on read-count structures of identical layout. -/
def rcLe : ReadCounts → ReadCounts → Prop
  | .dense m, .dense m2 => List.Forall₂ (List.Forall₂ (fun a b => a ≤ b)) m m2
  | .sparse s, .sparse s2 =>
      s.rows = s2.rows ∧ s.cols = s2.cols ∧ s.rowIdx = s2.rowIdx ∧
        s.colIdx = s2.colIdx ∧ List.Forall₂ (fun a b => a ≤ b) s.data s2.data
  | _, _ => False

/-- Positions of the entries of a CSR matrix holding a nonzero value. -/
def nonzeroPos (s : CSR) : List (ℕ × ℕ) :=
  ((s.rowIdx.zip s.colIdx).zip s.data).filterMap
    (fun p => if p.2 = 0 then none else some p.1)

/-! ### UMI Sampling Engine (sequencing.py, umi_counts) -/

/-- A numpy ndarray of expression values: its shape tuple and its entries
flattened in row-major order. -/
structure NDArray where
  shape : List ℕ
  data : List ℚ
deriving DecidableEq

/-- The lib_size argument: python None, a scalar, or a per-cell array over
the flattened cell index space. -/
inductive LibSizeArg
  | none
  | scalar (n : ℕ)
  | perCell (v : List ℕ)
deriving DecidableEq

/-- The fragments_per_gene argument: a scalar or a per-gene array. -/
inductive FragArg
  | scalar (k : ℕ)
  | perGene (v : List ℕ)
deriving DecidableEq

/-- Number of cells: the product of all axes but the last, over which
np.ndindex iterates in row-major order. -/
def cellCount (raw : NDArray) : ℕ := raw.shape.dropLast.prod

/-- raw_expression.shape[-1], the gene axis (only evaluated on non-empty
shapes; the 0-d case errors out before this is used). -/
def nGenes (raw : NDArray) : ℕ := raw.shape.getLastD 0

/-- The expression row of flattened cell i. -/
def cellRow (raw : NDArray) (i : ℕ) : List ℚ :=
  (raw.data.drop (i * nGenes raw)).take (nGenes raw)

/-- Lines 81-84: lib_size = library_size(n_cells) when None (libDraws models
the values that call returned), else np.broadcast_to(lib_size, n_cells);
an array must match the flattened cell count (the canonical broadcast). -/
def assignLibs (raw : NDArray) (lib_size : LibSizeArg) (libDraws : List ℕ) :
    Except String (List ℕ) :=
  match lib_size with
  | .none => .ok libDraws
  | .scalar n => .ok (List.replicate (cellCount raw) n)
  | .perCell v =>
      if v.length = cellCount raw then .ok v
      else .error "could not broadcast lib_size"

/-- Line 86: np.broadcast_to(fragments_per_gene, (n_genes,)). -/
def assignFrags (raw : NDArray) (fragments_per_gene : FragArg) :
    Except String (List ℕ) :=
  match fragments_per_gene with
  | .scalar k => .ok (List.replicate (nGenes raw) k)
  | .perGene v =>
      if v.length = nGenes raw then .ok v
      else .error "could not broadcast fragments_per_gene"

/-- Line 89: np.repeat(row, fragments_per_gene, axis=-1) on one cell row:
gene j contributes frags j adjacent copies of its value. -/
def repeatFrags (row : List ℚ) (frags : List ℕ) : List ℚ :=
  (row.zip frags).flatMap (fun p => List.replicate p.2 p.1)

/-- Line 91: one row of gene_p, the per-cell normalization of the fragment
expression row. -/
def normalize (r : List ℚ) : List ℚ := r.map (fun x => x / r.sum)

/-- umi_counts, modelled up to the stacked rows of the count matrix (the
dense output reshaped to (cellCount, -1); the sparse path stacks the same
multinomial rows into a CSR matrix after a reshape warning). The oracle
mdraw i n p models np.random.multinomial(n, p) for cell i. A 0-d input
passes the 1-d check and then fails at shape[-1] with an IndexError,
modelled as the error string python reports. A cell whose fragment row
sums to zero makes gene_p all-NaN and np.random.multinomial raises,
modelled as the pvals error. -/
def umi_counts (raw : NDArray) (lib_size : LibSizeArg) (fragments_per_gene : FragArg)
    ( sparse : Bool) (libDraws : List ℕ) (mdraw : ℕ → ℕ → List ℚ → List ℕ) :
    Except String (List (List ℕ)) :=
  if raw.data.any (fun x => decide (x < 0)) then
    .error "raw_expression must be non-negative"
  else if raw.shape.length = 1 then
    .error "raw_expression should be >= 2 dimensions"
  else if raw.shape.length = 0 then
    .error "tuple index out of range"
  else
    match assignLibs raw lib_size libDraws, assignFrags raw fragments_per_gene with
    | .error e, _ => .error e
    | .ok _, .error e => .error e
    | .ok libs, .ok frags =>
      let fragRows := (List.range (cellCount raw)).map
        (fun i => repeatFrags (cellRow raw i) frags)
      if fragRows.any (fun r => decide (r.sum = 0)) then
        .error "pvals must sum to 1 and contain no NaN"
      else
        .ok ((List.range (cellCount raw)).map
          (fun i => mdraw i (libs.getD i 0) (normalize (fragRows.getD i []))))

/-! ### Helper lemmas -/

theorem forall2_mapWithIdx {α β : Type} (R : α → β → Prop) (g : ℕ → α → β)
    (h : ∀ i a, R a (g i a)) : ∀ (k : ℕ) (l : List α), List.Forall₂ R l (mapWithIdx g k l)
  | _, [] => .nil
  | k, a :: l => .cons (h k a) (forall2_mapWithIdx R g h (k + 1) l)

theorem forall2_trans {α : Type} {R : α → α → Prop}
    (hR : ∀ a b c, R a b → R b c → R a c) :
    ∀ {l1 l2 l3 : List α}, List.Forall₂ R l1 l2 → List.Forall₂ R l2 l3 →
      List.Forall₂ R l1 l3
  | _, _, _, .nil, .nil => .nil
  | _, _, _, .cons h1 t1, .cons h2 t2 => .cons (hR _ _ _ h1 h2) (forall2_trans hR t1 t2)

theorem foldl_rel {α : Type} {R : α → α → Prop} (hrefl : ∀ a, R a a)
    (htrans : ∀ a b c, R a b → R b c → R a c) (f : α → ℕ → α)
    (hstep : ∀ a i, R a (f a i)) : ∀ (l : List ℕ) (a : α), R a (l.foldl f a)
  | [], a => hrefl a
  | i :: l, a => htrans _ _ _ (hstep a i) (foldl_rel hrefl htrans f hstep l (f a i))

theorem broadcastBetas_ok {b : BetaArg} {n : ℕ} (h : betaLenOk b n = true) :
    ∃ bv, broadcastBetas b n = .ok bv := by
  cases b with
  | scalar q => exact ⟨_, rfl⟩
  | perFeature v =>
      simp only [betaLenOk, decide_eq_true_eq] at h
      exact ⟨v, by simp [broadcastBetas, h]⟩

theorem denseLe_step (draws : ℕ → ℕ → ℕ → ℕ → ℕ) (cyc : ℕ) (m : List (List ℕ)) :
    List.Forall₂ (List.Forall₂ (fun a b => a ≤ b)) m (pcrStepDense draws cyc m) :=
  forall2_mapWithIdx _ _
    (fun r row => forall2_mapWithIdx _ _ (fun _ v => Nat.le_add_right v _) 0 row) 0 m

theorem denseLe_pcrDense (draws : ℕ → ℕ → ℕ → ℕ → ℕ) (n_cycles : ℕ)
    (m : List (List ℕ)) :
    List.Forall₂ (List.Forall₂ (fun a b => a ≤ b)) m (pcrDense draws n_cycles m) := by
  unfold pcrDense
  apply foldl_rel
  · intro a
    exact List.forall₂_same.mpr (fun x _ => List.forall₂_same.mpr (fun _ _ => le_refl _))
  · intro a b c hab hbc
    refine forall2_trans ?_ hab hbc
    intro x y z h1 h2
    refine forall2_trans ?_ h1 h2
    intro u v w p q
    exact le_trans p q
  · intro a cyc
    exact denseLe_step draws cyc a

theorem dataLe_pcrCData (draws : ℕ → ℕ → ℕ → ℕ → ℕ) (n_cycles : ℕ) (d : List ℕ) :
    List.Forall₂ (fun a b => a ≤ b) d (pcrCData draws n_cycles d) := by
  unfold pcrCData
  apply foldl_rel
  · intro a
    exact List.forall₂_same.mpr (fun _ _ => le_refl _)
  · intro a b c hab hbc
    refine forall2_trans ?_ hab hbc
    intro x y z p q
    exact le_trans p q
  · intro a cyc
    exact forall2_mapWithIdx _ _ (fun _ v => Nat.le_add_right v _) 0 a

theorem zeroIff_pcrCData (draws : ℕ → ℕ → ℕ → ℕ → ℕ) (hsup : binomialSupport draws)
    (n_cycles : ℕ) (d : List ℕ) :
    List.Forall₂ (fun a b => a = 0 ↔ b = 0) d (pcrCData draws n_cycles d) := by
  unfold pcrCData
  apply foldl_rel
  · intro a
    exact List.forall₂_same.mpr (fun _ _ => Iff.rfl)
  · intro a b c hab hbc
    refine forall2_trans ?_ hab hbc
    intro x y z h1 h2
    exact h1.trans h2
  · intro a cyc
    apply forall2_mapWithIdx
    intro k v
    constructor
    · intro hv
      subst hv
      simpa using hsup cyc 0 k 0
    · intro hv
      exact Nat.eq_zero_of_add_eq_zero_right hv

theorem filterMap_zip_zero_congr {β : Type} :
    ∀ (ps : List β) (d d2 : List ℕ),
      List.Forall₂ (fun a b => a = 0 ↔ b = 0) d d2 →
      (ps.zip d).filterMap (fun p => if p.2 = 0 then none else some p.1) =
        (ps.zip d2).filterMap (fun p => if p.2 = 0 then none else some p.1)
  | [], _, _, _ => by simp
  | _ :: _, _, _, .nil => by simp
  | q :: ps, a :: d, b :: d2, .cons hab t => by
      simp only [List.zip_cons_cons, List.filterMap_cons]
      by_cases ha : a = 0
      · rw [if_pos ha, if_pos (hab.mp ha)]
        exact filterMap_zip_zero_congr ps d d2 t
      · rw [if_neg ha, if_neg (fun hb => ha (hab.mpr hb))]
        rw [filterMap_zip_zero_congr ps d d2 t]

/-! ### Claims about pcr_noise -/

/-- C2: for every read_counts of non-negative integer counts, every pcr_betas
with all values >= 0 (which also must broadcast to the feature count), and
every n_cycles >= 0, pcr_noise succeeds and its output is entrywise >= the
input; with n_cycles = 0 the output equals the input exactly. -/
theorem pcr_noise_monotone (rc : ReadCounts) (pcr_betas : BetaArg) (n_cycles : ℕ)
    (copy : Bool) (draws : ℕ → ℕ → ℕ → ℕ → ℕ)
    (hβ : betaHasNeg pcr_betas = false)
    (hlen : betaLenOk pcr_betas (rcCols rc) = true) :
    ∃ rc2, (pcr_noise rc pcr_betas n_cycles copy draws).1 = .ok rc2 ∧ rcLe rc rc2 ∧
      (n_cycles = 0 → rc2 = rc) := by
  obtain ⟨bv, hbv⟩ := broadcastBetas_ok hlen
  cases rc with
  | dense m =>
      refine ⟨.dense (pcrDense draws n_cycles m), ?_, ?_, ?_⟩
      · simp [pcr_noise, hβ, hbv]
      · exact denseLe_pcrDense draws n_cycles m
      · rintro rfl
        rfl
  | sparse s =>
      refine ⟨.sparse { s with data := pcrCData draws n_cycles s.data }, ?_, ?_, ?_⟩
      · simp [pcr_noise, hβ, hbv]
      · exact ⟨rfl, rfl, rfl, rfl, dataLe_pcrCData draws n_cycles s.data⟩
      · rintro rfl
        rfl

/-- Witness for C2 at a concrete input: a 1 x 1 dense matrix [[2]] with a
zero efficiency over 5 cycles. -/
theorem pcr_noise_monotone_w :
    betaHasNeg (.scalar 0) = false ∧ betaLenOk (.scalar 0) (rcCols (.dense [[2]])) = true ∧
    ∃ rc2, (pcr_noise (.dense [[2]]) (.scalar 0) 5 true (fun _ _ _ _ => 0)).1 = .ok rc2 ∧
      rcLe (.dense [[2]]) rc2 ∧ (5 = 0 → rc2 = .dense [[2]]) :=
  ⟨rfl, rfl, pcr_noise_monotone (.dense [[2]]) (.scalar 0) 5 true (fun _ _ _ _ => 0) rfl rfl⟩

/-- C3: pcr_noise on a sparse (CSR) input whose binomial draws stay in the
support of the distribution preserves the stored layout and the exact set of
nonzero index positions, applying the update only to the stored data. -/
theorem pcr_noise_sparse_pattern (s : CSR) (pcr_betas : BetaArg) (n_cycles : ℕ)
    (copy : Bool) (draws : ℕ → ℕ → ℕ → ℕ → ℕ) (hsup : binomialSupport draws)
    (hβ : betaHasNeg pcr_betas = false) (hlen : betaLenOk pcr_betas s.cols = true) :
    ∃ s2, (pcr_noise (.sparse s) pcr_betas n_cycles copy draws).1 = .ok (.sparse s2) ∧
      s2.rows = s.rows ∧ s2.cols = s.cols ∧ s2.rowIdx = s.rowIdx ∧ s2.colIdx = s.colIdx ∧
      s2.data.length = s.data.length ∧ nonzeroPos s2 = nonzeroPos s := by
  obtain ⟨bv, hbv⟩ := broadcastBetas_ok (n := rcCols (.sparse s)) hlen
  refine ⟨{ s with data := pcrCData draws n_cycles s.data }, ?_, rfl, rfl, rfl, rfl, ?_, ?_⟩
  · simp [pcr_noise, hβ, hbv]
  · exact ((zeroIff_pcrCData draws hsup n_cycles s.data).length_eq).symm
  · exact (filterMap_zip_zero_congr (s.rowIdx.zip s.colIdx) _ _
      (zeroIff_pcrCData draws hsup n_cycles s.data)).symm

/-- Witness for C3 at a concrete input: a 1 x 2 CSR matrix storing value 3 at
position (0, 1), one cycle, with the maximal draw allowed by the support. -/
theorem pcr_noise_sparse_pattern_w :
    binomialSupport (fun _ _ _ n => n) ∧ betaHasNeg (.scalar 0) = false ∧
    betaLenOk (.scalar 0) (CSR.mk 1 2 [0] [1] [3]).cols = true ∧
    ∃ s2, (pcr_noise (.sparse ⟨1, 2, [0], [1], [3]⟩) (.scalar 0) 1 false
        (fun _ _ _ n => n)).1 = .ok (.sparse s2) ∧
      s2.rows = 1 ∧ s2.cols = 2 ∧ s2.rowIdx = [0] ∧ s2.colIdx = [1] ∧
      s2.data.length = 1 ∧ nonzeroPos s2 = nonzeroPos ⟨1, 2, [0], [1], [3]⟩ :=
  ⟨fun _ _ _ n => le_refl n, rfl, rfl,
    pcr_noise_sparse_pattern ⟨1, 2, [0], [1], [3]⟩ (.scalar 0) 1 false
      (fun _ _ _ n => n) (fun _ _ _ n => le_refl n) rfl rfl⟩

/-- C5: a pcr_betas containing a negative value makes pcr_noise raise the
validation error before any copy or mutation, so the caller buffer is
unchanged even with copy = false. -/
theorem pcr_noise_neg_beta (rc : ReadCounts) (pcr_betas : BetaArg) (n_cycles : ℕ)
    (copy : Bool) (draws : ℕ → ℕ → ℕ → ℕ → ℕ)
    (hneg : betaHasNeg pcr_betas = true) :
    pcr_noise rc pcr_betas n_cycles copy draws =
      (.error "pcr_betas must be non-negative", rc) := by
  simp [pcr_noise, hneg]

/-- Witness for C5 at a concrete input: pcr_betas = [-1] with copy = false
leaves the dense buffer [[1]] untouched. -/
theorem pcr_noise_neg_beta_w :
    betaHasNeg (.perFeature [-1]) = true ∧
    pcr_noise (.dense [[1]]) (.perFeature [-1]) 3 false (fun _ _ _ _ => 0) =
      (.error "pcr_betas must be non-negative", .dense [[1]]) :=
  ⟨rfl, pcr_noise_neg_beta (.dense [[1]]) (.perFeature [-1]) 3 false (fun _ _ _ _ => 0) rfl⟩

/-- C6: pcr_noise with copy = true leaves the caller buffer exactly as it was
passed, for dense and sparse inputs alike, and the value it returns is the
same as the one the in-place variant would compute. -/
theorem pcr_noise_copy_frame (rc : ReadCounts) (pcr_betas : BetaArg) (n_cycles : ℕ)
    (draws : ℕ → ℕ → ℕ → ℕ → ℕ) :
    (pcr_noise rc pcr_betas n_cycles true draws).2 = rc ∧
    (pcr_noise rc pcr_betas n_cycles true draws).1 =
      (pcr_noise rc pcr_betas n_cycles false draws).1 := by
  by_cases h : betaHasNeg pcr_betas
  · simp [pcr_noise, h]
  · cases hb : broadcastBetas pcr_betas (rcCols rc) with
    | error e => simp [pcr_noise, h, hb]
    | ok bv => cases rc <;> simp [pcr_noise, h, hb]

/-! ### Claims about umi_counts -/

/-- C1: whenever umi_counts produces a count matrix, each of its rows sums
exactly to the library size assigned to that cell (broadcast scalar or array,
or the values drawn through library_size when lib_size is omitted), given
that every multinomial draw of size n sums to n. -/
theorem umi_counts_row_sums (raw : NDArray) (lib_size : LibSizeArg)
    (fragments_per_gene : FragArg) ( sp : Bool) (libDraws : List ℕ)
    (mdraw : ℕ → ℕ → List ℚ → List ℕ)
    (hdraw : ∀ i n p, (mdraw i n p).sum = n)
    (out : List (List ℕ)) (libs : List ℕ)
    (hout : umi_counts raw lib_size fragments_per_gene sp libDraws mdraw = .ok out)
    (hlibs : assignLibs raw lib_size libDraws = .ok libs) :
    out.length = cellCount raw ∧
      ∀ i, i < out.length → (out.getD i []).sum = libs.getD i 0 := by
  rw [umi_counts] at hout
  split at hout
  · cases hout
  · split at hout
    · cases hout
    · split at hout
      · cases hout
      · rw [hlibs] at hout
        cases hf : assignFrags raw fragments_per_gene with
        | error e =>
            rw [hf] at hout
            simp at hout
        | ok frags =>
            rw [hf] at hout
            simp only [] at hout
            split at hout
            · cases hout
            · cases hout
              constructor
              · simp
              · intro i hi
                simp only [List.length_map, List.length_range] at hi
                simp [List.getD_eq_getElem?_getD, List.getElem?_map,
                  List.getElem?_range, hi, hdraw]

/-- Witness for C1 at a concrete input: a 2 x 2 expression matrix of ones with
scalar lib_size 5 and a multinomial oracle putting all mass on one feature. -/
theorem umi_counts_row_sums_w :
    umi_counts ⟨[2, 2], [1, 1, 1, 1]⟩ (.scalar 5) (.scalar 1) false []
        (fun _ n _ => [n]) = .ok [[5], [5]] ∧
      (([[5], [5]] : List (List ℕ)).getD 0 []).sum = ([5, 5] : List ℕ).getD 0 0 := by
  have hout : umi_counts ⟨[2, 2], [1, 1, 1, 1]⟩ (.scalar 5) (.scalar 1) false []
      (fun _ n _ => [n]) = .ok [[5], [5]] := by
    norm_num [umi_counts, cellCount, nGenes, cellRow, assignLibs, assignFrags,
      repeatFrags, List.range_succ, List.replicate_succ, List.zip_cons_cons,
      List.flatMap_cons]
  refine ⟨hout, ?_⟩
  exact (umi_counts_row_sums ⟨[2, 2], [1, 1, 1, 1]⟩ (.scalar 5) (.scalar 1) false []
    (fun _ n _ => [n]) (fun i n p => by simp) [[5], [5]] [5, 5] hout rfl).2 0 (by norm_num)

/-- C10: the non-negativity check runs before the dimensionality check, so a
1-d raw_expression holding a negative value reports the non-negativity
validation error, not the dimensionality one. -/
theorem umi_counts_neg_check_first (raw : NDArray) (lib_size : LibSizeArg)
    (fragments_per_gene : FragArg) ( sp : Bool) (libDraws : List ℕ)
    (mdraw : ℕ → ℕ → List ℚ → List ℕ)
    (h1 : raw.shape.length = 1)
    (hneg : raw.data.any (fun x => decide (x < 0)) = true) :
    umi_counts raw lib_size fragments_per_gene sp libDraws mdraw =
      .error "raw_expression must be non-negative" := by
  rw [umi_counts, if_pos hneg]

/-- Witness for C10 at the concrete 1-d input [-1]. -/
theorem umi_counts_neg_check_first_w :
    (NDArray.mk [1] [-1]).shape.length = 1 ∧
    (NDArray.mk [1] [-1]).data.any (fun x => decide (x < 0)) = true ∧
    umi_counts ⟨[1], [-1]⟩ .none (.scalar 1) false [] (fun _ _ _ => []) =
      .error "raw_expression must be non-negative" :=
  ⟨rfl, rfl, umi_counts_neg_check_first ⟨[1], [-1]⟩ .none (.scalar 1) false []
    (fun _ _ _ => []) rfl rfl⟩

/-- C4 counterexample: a 0-d raw_expression (shape (), one non-negative entry)
passes the dimensionality check, which only tests len(shape) == 1, and fails
at shape[-1] with an IndexError rather than the dimensionality validation
error the claim requires for every input with fewer than 2 axes. -/
theorem umi_counts_zero_dim_cex :
    umi_counts ⟨[], [3]⟩ .none (.scalar 1) false [] (fun _ _ _ => []) =
        .error "tuple index out of range" ∧
      "tuple index out of range" ≠ "raw_expression should be >= 2 dimensions" :=
  ⟨rfl, by decide⟩

/-- C4 amended: a non-negative 1-d raw_expression makes umi_counts fail with
the dimensionality validation error before any sampling; a 0-d input is not
caught by that check and instead fails with an index error at shape[-1],
still before any sampling. -/
theorem umi_counts_low_dim_error (raw : NDArray) (lib_size : LibSizeArg)
    (fragments_per_gene : FragArg) ( sp : Bool) (libDraws : List ℕ)
    (mdraw : ℕ → ℕ → List ℚ → List ℕ)
    (hnn : raw.data.any (fun x => decide (x < 0)) = false) :
    (raw.shape.length = 1 →
      umi_counts raw lib_size fragments_per_gene sp libDraws mdraw =
        .error "raw_expression should be >= 2 dimensions") ∧
    (raw.shape.length = 0 →
      umi_counts raw lib_size fragments_per_gene sp libDraws mdraw =
        .error "tuple index out of range") := by
  constructor <;> intro h <;> simp [umi_counts, hnn, h]

/-- Witness for the amended C4 at the concrete 1-d input [2]. -/
theorem umi_counts_low_dim_error_w :
    (NDArray.mk [1] [2]).data.any (fun x => decide (x < 0)) = false ∧
    umi_counts ⟨[1], [2]⟩ .none (.scalar 1) false [] (fun _ _ _ => []) =
      .error "raw_expression should be >= 2 dimensions" :=
  ⟨rfl, (umi_counts_low_dim_error ⟨[1], [2]⟩ .none (.scalar 1) false []
    (fun _ _ _ => []) rfl).1 rfl⟩

/-! ### Claims about library_size -/

theorem floor_exp_one : ⌊Real.exp 1⌋ = 2 := by
  have h1 := Real.exp_one_gt_d9
  have h2 := Real.exp_one_lt_d9
  rw [Int.floor_eq_iff]
  constructor
  · push_cast
    nlinarith
  · push_cast
    nlinarith

/-- C7 counterexample: with loc = 1, scale = 1, lower_bound = 0, upper_bound = 1
and the in-support truncated normal draw x = 1, library_size returns the
integer 2, which is strictly below exp(loc + lower_bound * scale) = e; the
integer truncation can drop a value below the exponentiated lower bound. -/
theorem library_size_cex :
    truncnormSupport 1 1 0 1 1 ∧ library_size [1] = [2] ∧
      ((2 : ℝ) < Real.exp (1 + 0 * 1)) := by
  refine ⟨⟨by norm_num, by norm_num⟩, ?_, ?_⟩
  · simp [library_size, floor_exp_one]
  · have h1 := Real.exp_one_gt_d9
    norm_num
    nlinarith

/-- C7 amended: every value library_size returns is a non-negative integer
lying strictly above exp(loc + lower_bound * scale) - 1 (it can undershoot the
exponentiated lower bound by less than one because of the integer truncation)
and at most exp(loc + upper_bound * scale). -/
theorem library_size_bounds (loc scale lowerB upperB : ℝ) (draws : List ℝ)
    (hd : ∀ x ∈ draws, truncnormSupport loc scale lowerB upperB x) :
    ∀ v ∈ library_size draws, 0 ≤ v ∧
      Real.exp (loc + lowerB * scale) - 1 < (v : ℝ) ∧
      (v : ℝ) ≤ Real.exp (loc + upperB * scale) := by
  intro v hv
  simp only [library_size, List.mem_map] at hv
  obtain ⟨x, hx, rfl⟩ := hv
  obtain ⟨hxl, hxu⟩ := hd x hx
  refine ⟨?_, ?_, ?_⟩
  · exact Int.le_floor.mpr (by simpa using (Real.exp_pos x).le)
  · calc Real.exp (loc + lowerB * scale) - 1 ≤ Real.exp x - 1 := by
          have := Real.exp_le_exp.mpr hxl
          linarith
      _ < ((⌊Real.exp x⌋ : ℤ) : ℝ) := Int.sub_one_lt_floor _
  · calc ((⌊Real.exp x⌋ : ℤ) : ℝ) ≤ Real.exp x := Int.floor_le _
      _ ≤ Real.exp (loc + upperB * scale) := Real.exp_le_exp.mpr hxu

/-- Witness for the amended C7 at loc = 1, scale = 1, bounds [0, 1], draw 1. -/
theorem library_size_bounds_w :
    0 ≤ (2 : ℤ) ∧ Real.exp (1 + 0 * 1) - 1 < ((2 : ℤ) : ℝ) ∧
      ((2 : ℤ) : ℝ) ≤ Real.exp (1 + 1 * 1) := by
  refine library_size_bounds 1 1 0 1 [1] ?_ 2 ?_
  · intro x hx
    simp only [List.mem_singleton] at hx
    subst hx
    exact ⟨by norm_num, by norm_num⟩
  · simp [library_size, floor_exp_one]

/-! ### Claims about fragment_genes -/

/-- C8: every fragment count is at least 1 for any lam >= 0, and with lam = 0
the Poisson draws are all zero so the output is deterministically all ones. -/
theorem fragment_genes_ge_one (n_genes : ℕ) (lam : ℚ) (draws : List ℕ)
    (hlen : draws.length = n_genes)
    (hsup : ∀ k ∈ draws, poissonSupport lam k) :
    (∀ g ∈ fragment_genes draws, 1 ≤ g) ∧
      (lam = 0 → fragment_genes draws = List.replicate n_genes 1) := by
  constructor
  · intro g hg
    simp only [fragment_genes, List.mem_map] at hg
    obtain ⟨k, hk, rfl⟩ := hg
    exact Nat.le_add_right 1 k
  · intro hlam
    subst hlam
    subst hlen
    have hzero : ∀ k ∈ draws, k = 0 := by
      intro k hk
      rcases hsup k hk with h | h
      · exact absurd h (lt_irrefl 0)
      · exact h
    clear hsup
    induction draws with
    | nil => rfl
    | cons k t ih =>
        have hk := hzero k (List.mem_cons_self k t)
        subst hk
        have ht := ih (fun x hx => hzero x (List.mem_cons_of_mem _ hx))
        simp only [fragment_genes, List.map_cons, List.length_cons,
          List.replicate_succ] at ht ⊢
        rw [ht]

/-- Witness for C8: fragment_genes(n_genes = 5, lam = 0) with the only
draws Poisson(0) admits gives [1, 1, 1, 1, 1]. -/
theorem fragment_genes_ge_one_w :
    fragment_genes (List.replicate 5 0) = List.replicate 5 1 :=
  (fragment_genes_ge_one 5 0 (List.replicate 5 0) (by decide)
    (fun k hk => Or.inr (by simpa using List.eq_of_mem_replicate hk))).2 rfl

/-! ### Claims about response -/

/-- C9: every entry of the response matrix lies strictly inside the open
interval (0, 1), since the logistic function maps every real there. -/
theorem response_in_unit (latent_exp : List (List ℝ)) (z_weights doses : List ℝ)
    (row : List ℝ) (hrow : row ∈ response latent_exp z_weights doses)
    (v : ℝ) (hv : v ∈ row) : 0 < v ∧ v < 1 := by
  simp only [response, List.mem_map] at hrow
  obtain ⟨lrow, _, rfl⟩ := hrow
  simp only [List.mem_map] at hv
  obtain ⟨d, _, rfl⟩ := hv
  unfold expit
  constructor
  · positivity
  · rw [div_lt_one (by positivity)]
    have := Real.exp_pos (-(dotZ lrow z_weights + d))
    linarith

/-- Witness for C9 at the concrete input latent_exp = [[0]], z_weights = [0],
doses = [0], whose single response entry is expit(0) = 1/2. -/
theorem response_in_unit_w :
    0 < expit (dotZ [(0 : ℝ)] [0] + 0) ∧ expit (dotZ [(0 : ℝ)] [0] + 0) < 1 :=
  response_in_unit [[0]] [0] [0] _ (List.mem_singleton.mpr rfl) _
    (List.mem_singleton.mpr rfl)

end SimsCity

